import Mathlib

set_option maxRecDepth 2000

/-!
# Verification of the `dbrs` storage core

A shallow embedding of the repository's row codec (`src/row.rs`) and paged
table (`src/table.rs`), together with theorems settling the specification
claims about them.

Modelling conventions:
* A Rust `String` / `&str` is modelled as a `List Nat` of Unicode scalar
  values (each `< 0x110000` and outside the surrogate range); its UTF-8
  byte representation (`as_bytes`, `len`) is obtained through `utf8Encode`.
  Two Rust strings are equal iff their scalar sequences are equal, so this
  representation is faithful.
* Byte buffers (`Vec<u8>`, `[u8; N]`) are `List Nat` with entries `< 256`.
* `usize` / `u32` arithmetic is `Nat` arithmetic; the only place overflow
  could matter (`u32::to_le_bytes`) takes each byte mod 256 explicitly.
* Fallible operations return `Except String _`; operations in which the
  Rust code calls `.unwrap()` on a value that can be `None`/`Err` are given
  an explicit `panicked` outcome modelling the abort.
-/

namespace DbRs

/-! ## Unicode scalar values and the UTF-8 codec (`std::str` behaviour) -/

/-- A Unicode scalar value: below 0x110000 and not a surrogate.  Every
`char` of a Rust `String` satisfies this. -/
def isScalar (c : Nat) : Bool :=
  decide (c < 0x110000) && !(decide (0xD800 ≤ c) && decide (c < 0xE000))

/-- All entries of the scalar list are Unicode scalar values (a faithful
image of the Rust `String` type invariant). -/
def ValidStr (s : List Nat) : Bool := s.all isScalar

/-- UTF-8 encoding of a single Unicode scalar value (`char::encode_utf8`). -/
def utf8EncodeChar (c : Nat) : List Nat :=
  if c < 0x80 then [c]
  else if c < 0x800 then [0xC0 + c / 64, 0x80 + c % 64]
  else if c < 0x10000 then [0xE0 + c / 4096, 0x80 + c / 64 % 64, 0x80 + c % 64]
  else [0xF0 + c / 0x40000, 0x80 + c / 4096 % 64, 0x80 + c / 64 % 64, 0x80 + c % 64]

/-- UTF-8 encoding of a string given as its scalar values (`str::as_bytes`). -/
def utf8Encode : List Nat → List Nat
  | [] => []
  | c :: cs => utf8EncodeChar c ++ utf8Encode cs

/-- A UTF-8 continuation byte. -/
def isCont (b : Nat) : Bool := decide (0x80 ≤ b) && decide (b < 0xC0)

/-- Decode one UTF-8 character from the front of a byte list, mirroring
one step of `std::str::from_utf8` validation: rejects continuation or
overlong lead bytes, unexpected continuation bytes, surrogates and
scalars above 0x10FFFF.  Returns the scalar and the remaining bytes. -/
def utf8DecodeChar (l : List Nat) : Option (Nat × List Nat) :=
  match l with
  | [] => none
  | b :: rest =>
    if b < 0x80 then some (b, rest)
    else if b < 0xC2 then none
    else if b < 0xE0 then
      match rest with
      | c1 :: r =>
        if isCont c1 then some ((b - 0xC0) * 64 + (c1 - 0x80), r) else none
      | [] => none
    else if b < 0xF0 then
      match rest with
      | c1 :: c2 :: r =>
        if isCont c1 && isCont c2 &&
            (decide (b ≠ 0xE0) || decide (0xA0 ≤ c1)) &&
            (decide (b ≠ 0xED) || decide (c1 < 0xA0)) then
          some ((b - 0xE0) * 4096 + (c1 - 0x80) * 64 + (c2 - 0x80), r)
        else none
      | _ => none
    else if b < 0xF5 then
      match rest with
      | c1 :: c2 :: c3 :: r =>
        if isCont c1 && isCont c2 && isCont c3 &&
            (decide (b ≠ 0xF0) || decide (0x90 ≤ c1)) &&
            (decide (b ≠ 0xF4) || decide (c1 < 0x90)) then
          some ((b - 0xF0) * 0x40000 + (c1 - 0x80) * 4096 +
            (c2 - 0x80) * 64 + (c3 - 0x80), r)
        else none
      | _ => none
    else none

/-- Fuelled iteration of `utf8DecodeChar`; the fuel only bounds the
number of characters, which never exceeds the byte count. -/
def utf8DecodeFuel : Nat → List Nat → Option (List Nat)
  | _, [] => some []
  | 0, _ :: _ => none
  | fuel + 1, b :: rest =>
    match utf8DecodeChar (b :: rest) with
    | none => none
    | some (c, r) => (utf8DecodeFuel fuel r).map (c :: ·)

/-- UTF-8 validation-and-decoding of a whole byte list
(`std::str::from_utf8`): succeeds with the scalar values iff the bytes
are valid UTF-8. -/
def utf8Decode (l : List Nat) : Option (List Nat) := utf8DecodeFuel l.length l

/-! ## The row codec (`src/row.rs`) -/

/-- `struct Row { id: u32, username: String, email: String }`.
The strings are carried as lists of Unicode scalar values. -/
structure Row where
  id : Nat
  username : List Nat
  email : List Nat
deriving DecidableEq, Repr

/-- The Rust type invariants of `Row`: `id` fits in 32 bits and both
strings hold only Unicode scalar values. -/
def RowWF (r : Row) : Prop :=
  r.id < 2 ^ 32 ∧ ValidStr r.username = true ∧ ValidStr r.email = true

def ID_SIZE : Nat := 4
def USERNAME_OFFSET : Nat := ID_SIZE
def USERNAME_SIZE : Nat := 32
def EMAIL_OFFSET : Nat := USERNAME_OFFSET + USERNAME_SIZE
def EMAIL_SIZE : Nat := 255
def ROW_SIZE : Nat := ID_SIZE + USERNAME_SIZE + EMAIL_SIZE

/-- `u32::to_le_bytes`. -/
def u32ToLeBytes (n : Nat) : List Nat :=
  [n % 256, n / 256 % 256, n / 65536 % 256, n / 16777216 % 256]

/-- `u32::from_le_bytes`. -/
def u32FromLeBytes (b0 b1 b2 b3 : Nat) : Nat :=
  b0 + b1 * 256 + b2 * 65536 + b3 * 16777216

/-- `buf[off..off + src.len()].copy_from_slice(src)` on a list buffer. -/
def setSlice (buf : List Nat) (off : Nat) (src : List Nat) : List Nat :=
  buf.take off ++ src ++ buf.drop (off + src.length)

/-- `Row::serialize`: a zero buffer of `ROW_SIZE` bytes receives the
little-endian id at 0, the first `min(32, len)` bytes of the username at
offset 4 and the first `min(255, len)` bytes of the email at offset 36. -/
def Row.serialize (r : Row) : List Nat :=
  let buf0 := List.replicate ROW_SIZE 0
  let buf1 := setSlice buf0 0 (u32ToLeBytes r.id)
  let ub := utf8Encode r.username
  let username_size := min USERNAME_SIZE ub.length
  let buf2 := setSlice buf1 USERNAME_OFFSET (ub.take username_size)
  let eb := utf8Encode r.email
  let email_size := min EMAIL_SIZE eb.length
  setSlice buf2 EMAIL_OFFSET (eb.take email_size)

/-- `get_nul_position`: index of the first zero byte, or the length if
there is none. -/
def get_nul_position : List Nat → Nat
  | [] => 0
  | b :: r => if b = 0 then 0 else get_nul_position r + 1

/-- `Row::deserialize`: checks the buffer size, reads the little-endian
id, and for each text field takes the bytes up to the first zero byte
(or the whole fixed-width field) and validates them as UTF-8. -/
def Row.deserialize (bytes : List Nat) : Except String Row :=
  if bytes.length ≠ ROW_SIZE then
    .error "Expected bytes array of size 291"
  else
    let id := u32FromLeBytes (bytes.getD 0 0) (bytes.getD 1 0)
      (bytes.getD 2 0) (bytes.getD 3 0)
    let username_bytes := (bytes.drop USERNAME_OFFSET).take USERNAME_SIZE
    let username_end := get_nul_position username_bytes
    match utf8Decode (username_bytes.take username_end) with
    | none => .error "invalid utf-8 sequence"
    | some username =>
      let email_bytes := (bytes.drop EMAIL_OFFSET).take EMAIL_SIZE
      let email_end := get_nul_position email_bytes
      match utf8Decode (email_bytes.take email_end) with
      | none => .error "invalid utf-8 sequence"
      | some email => .ok ⟨id, username, email⟩

/-! ## `Row::from_string` (parsing) -/

/-- Rust `char::is_whitespace` (the Unicode `White_Space` property). -/
def isRustWhitespace (c : Nat) : Bool :=
  decide (c = 0x09) || decide (c = 0x0A) || decide (c = 0x0B) ||
  decide (c = 0x0C) || decide (c = 0x0D) || decide (c = 0x20) ||
  decide (c = 0x85) || decide (c = 0xA0) || decide (c = 0x1680) ||
  (decide (0x2000 ≤ c) && decide (c ≤ 0x200A)) ||
  decide (c = 0x2028) || decide (c = 0x2029) || decide (c = 0x202F) ||
  decide (c = 0x205F) || decide (c = 0x3000)

/-- Worker for `str::split_whitespace`: `acc` holds the current word,
reversed. -/
def splitWhitespaceAux : List Nat → List Nat → List (List Nat)
  | [], acc => if acc.isEmpty then [] else [acc.reverse]
  | c :: r, acc =>
    if isRustWhitespace c then
      if acc.isEmpty then splitWhitespaceAux r []
      else acc.reverse :: splitWhitespaceAux r []
    else splitWhitespaceAux r (c :: acc)

/-- `str::split_whitespace().collect()`. -/
def splitWhitespace (s : List Nat) : List (List Nat) := splitWhitespaceAux s []

/-- ASCII digit test. -/
def isAsciiDigit (c : Nat) : Bool := decide (0x30 ≤ c) && decide (c ≤ 0x39)

/-- Accumulating decimal value of a digit string. -/
def digitsToNat : List Nat → Nat → Nat
  | [], acc => acc
  | c :: r, acc => digitsToNat r (acc * 10 + (c - 0x30))

/-- `str::parse::<u32>()`: an optional leading `+`, then one or more
ASCII digits, with the value required to fit in 32 bits. -/
def parseU32 (s : List Nat) : Option Nat :=
  let t := match s with
    | c :: r => if c = 0x2B then r else s
    | [] => s
  if t.isEmpty then none
  else if t.all isAsciiDigit then
    let v := digitsToNat t 0
    if v < 2 ^ 32 then some v else none
  else none

/-- `Row::from_string`: exactly three whitespace-delimited tokens, the
first of which must parse as a `u32`. -/
def Row.from_string (s : List Nat) : Except String Row :=
  let words := splitWhitespace s
  if words.length ≠ 3 then
    .error "Expected 3 fields"
  else
    match parseU32 (words.getD 0 []) with
    | none => .error "Invalid id"
    | some id => .ok ⟨id, words.getD 1 [], words.getD 2 []⟩

/-- Scalar values of a Lean string literal, used to state concrete
parsing examples readably. -/
def scalars (s : String) : List Nat := s.data.map Char.toNat

instance {ε α : Type} [DecidableEq ε] [DecidableEq α] :
    DecidableEq (Except ε α) := fun x y =>
  match x, y with
  | .ok a, .ok b =>
    if h : a = b then .isTrue (by rw [h]) else .isFalse (by simp [h])
  | .error a, .error b =>
    if h : a = b then .isTrue (by rw [h]) else .isFalse (by simp [h])
  | .ok _, .error _ => .isFalse (by simp)
  | .error _, .ok _ => .isFalse (by simp)

/-! ## The paged table (`src/table.rs`) -/

def PAGE_SIZE : Nat := 4096
def TABLE_MAX_PAGES : Nat := 100
def ROWS_PER_PAGE : Nat := PAGE_SIZE / ROW_SIZE

/-- `struct Table { pages: Vec<Page>, num_rows: usize }` where
`type Page = [u8; PAGE_SIZE]`.  The fixed page size is an invariant of
reachable tables rather than part of the type. -/
structure Table where
  pages : List (List Nat)
  num_rows : Nat
deriving DecidableEq, Repr

def Table.new : Table := ⟨[], 0⟩

def Table.num_pages (t : Table) : Nat := t.pages.length

/-- `Table::add_page`: push one zero-filled page. -/
def Table.add_page (t : Table) : Table :=
  { t with pages := t.pages ++ [List.replicate PAGE_SIZE 0] }

/-- `Table::row_position`: page index and byte offset of a row number.
Pure arithmetic, no bounds checking. -/
def Table.row_position (row_num : Nat) : Nat × Nat :=
  (row_num / ROWS_PER_PAGE, row_num % ROWS_PER_PAGE * ROW_SIZE)

/-- Outcome of `Table::insert_row`.  `err` keeps the table, which the
early return leaves untouched; `panicked` models the `.unwrap()` on
`pages.get_mut(page_num)` failing. -/
inductive InsertResult where
  | ok (t : Table)
  | err (msg : String) (t : Table)
  | panicked
deriving DecidableEq, Repr

/-- `Table::insert_row`: position from the current `num_rows`; reject
when the page index exceeds `TABLE_MAX_PAGES`; lazily add one page;
copy the serialized bytes into the page; increment `num_rows`. -/
def Table.insert_row (t : Table) (row : Row) : InsertResult :=
  let pos := Table.row_position t.num_rows
  let page_num := pos.1
  let byte_offset_in_page := pos.2
  if page_num > TABLE_MAX_PAGES then
    .err "Reached max number of pages" t
  else
    let t1 := if page_num ≥ t.pages.length then t.add_page else t
    match t1.pages.get? page_num with
    | none => .panicked
    | some page =>
      let page1 := setSlice page byte_offset_in_page row.serialize
      .ok { pages := t1.pages.set page_num page1, num_rows := t.num_rows + 1 }

/-- Outcome of `Table::select_row`.  `absent` is the `None` of the page
bounds check; `panicked` models the final `row.unwrap()` aborting when
deserialization fails. -/
inductive SelectResult where
  | absent
  | panicked (msg : String)
  | found (row : Row)
deriving DecidableEq, Repr

/-- `Table::select_row`: absent when the page index is beyond the
allocated pages, otherwise deserialize the 291-byte slice at the row's
offset, aborting (`unwrap`) if deserialization fails. -/
def Table.select_row (t : Table) (position : Nat) : SelectResult :=
  let pos := Table.row_position position
  let page_num := pos.1
  let byte_offset_in_page := pos.2
  if page_num ≥ t.pages.length then .absent
  else
    let page := t.pages.getD page_num []
    let bytes := (page.drop byte_offset_in_page).take ROW_SIZE
    match Row.deserialize bytes with
    | .error e => .panicked e
    | .ok row => .found row

/-- The list of rows yielded by `TableIterator` (`next` returns the
`select_row` result and advances until `position ≥ num_rows`).  The
iterator borrows the table immutably, hence it cannot mutate it. -/
def Table.iterFrom (t : Table) (pos : Nat) : List SelectResult :=
  if pos < t.num_rows then t.select_row pos :: t.iterFrom (pos + 1) else []
termination_by t.num_rows - pos

/-- `insert_row` over a list of rows, succeeding only when every single
insertion returns `ok`. -/
def Table.insertAll (t : Table) : List Row → Option Table
  | [] => some t
  | r :: rs =>
    match t.insert_row r with
    | .ok t' => t'.insertAll rs
    | _ => none

/-- Tables reachable from `Table::new` by successful insertions of
(type-correct) rows.  Failing insertions leave the table unchanged and
so add no states. -/
inductive Reachable : Table → Prop where
  | new : Reachable Table.new
  | insert_ok (t t' : Table) (r : Row) :
      RowWF r → Reachable t → t.insert_row r = .ok t' → Reachable t'

/-- The 291-byte slice backing row number `pos`. -/
def Table.slotBytes (t : Table) (pos : Nat) : List Nat :=
  ((t.pages.getD (pos / ROWS_PER_PAGE) []).drop
    (pos % ROWS_PER_PAGE * ROW_SIZE)).take ROW_SIZE

/-- Bounds on the fields (`RowWF` plus the semantic byte bounds of §3)
together with NUL-freedom; under these, a row survives storage exactly. -/
def GoodRow (r : Row) : Prop :=
  RowWF r ∧ (utf8Encode r.username).length ≤ USERNAME_SIZE ∧
    (utf8Encode r.email).length ≤ EMAIL_SIZE ∧
    0 ∉ r.username ∧ 0 ∉ r.email

/-- The invariant of reachable tables: the page count is
`ceil(num_rows / ROWS_PER_PAGE)`, every page is `PAGE_SIZE` bytes, and
every allocated-but-unwritten row slot is zero-filled. -/
def Inv (t : Table) : Prop :=
  t.pages.length = (t.num_rows + (ROWS_PER_PAGE - 1)) / ROWS_PER_PAGE ∧
  (∀ i, i < t.pages.length → (t.pages.getD i []).length = PAGE_SIZE) ∧
  (∀ pos, t.num_rows ≤ pos → pos / ROWS_PER_PAGE < t.pages.length →
    t.slotBytes pos = List.replicate ROW_SIZE 0)

/-- `n` successive `insert_row` calls of the same row starting from a
fresh table, keeping the table an insertion returns (also on failure). -/
def iterInsert (r : Row) : Nat → Table
  | 0 => Table.new
  | n + 1 =>
    match (iterInsert r n).insert_row r with
    | .ok t' => t'
    | .err _ t' => t'
    | .panicked => Table.new

/-! ### Concrete inputs used by counterexamples and witnesses -/

/-- A well-formed row whose username is 33 UTF-8 bytes: 31 ASCII `a`s
followed by `é` (U+00E9, 2 bytes), so byte-truncation at 32 splits the
final character. -/
def c1row : Row := ⟨1, List.replicate 31 97 ++ [233], []⟩

/-- The table holding exactly `c1row`, the result of inserting it into
a fresh table. -/
def c1table : Table := ⟨[setSlice (List.replicate 4096 0) 0 c1row.serialize], 1⟩

/-- An in-bounds row for the C1 witness. -/
def w1row : Row := ⟨5, scalars "bob", scalars "b@c.d"⟩

/-- The table holding exactly `w1row`. -/
def w1table : Table := ⟨[setSlice (List.replicate 4096 0) 0 w1row.serialize], 1⟩

/-- A row whose username is the single NUL scalar: 1 byte, within every
bound, but the zero byte acts as terminator on deserialization. -/
def c3row : Row := ⟨1, [0], []⟩

/-- A NUL-free in-bounds row used by round-trip witnesses. -/
def w3row : Row := ⟨7, scalars "john", scalars "j@x.com"⟩

/-- The table holding exactly `c3row`, used to refute the
insertion-order claim as stated. -/
def c5table : Table := ⟨[setSlice (List.replicate 4096 0) 0 c3row.serialize], 1⟩

/-- A row used by the C4 witness. -/
def c4row : Row := ⟨3, scalars "ann", scalars "a@b.c"⟩

/-- The table holding exactly `c4row`. -/
def c4table : Table := ⟨[setSlice (List.replicate 4096 0) 0 c4row.serialize], 1⟩

/-- A row used by the C9 witness. -/
def c9row : Row := ⟨9, scalars "kim", scalars "k@l.m"⟩

/-- The table holding exactly `w3row`. -/
def w3table : Table := ⟨[setSlice (List.replicate 4096 0) 0 w3row.serialize], 1⟩

/-- The table holding exactly `c9row`. -/
def w9table : Table := ⟨[setSlice (List.replicate 4096 0) 0 c9row.serialize], 1⟩

end DbRs

namespace DbRs

/-! ## Basic facts about the constants and helpers -/

theorem ROW_SIZE_eq : ROW_SIZE = 291 := rfl

theorem ROWS_PER_PAGE_eq : ROWS_PER_PAGE = 14 := rfl

theorem u32ToLeBytes_length (n : Nat) : (u32ToLeBytes n).length = 4 := rfl

theorem setSlice_length (buf src : List Nat) (off : Nat)
    (h : off + src.length ≤ buf.length) :
    (setSlice buf off src).length = buf.length := by
  simp only [setSlice, List.length_append, List.length_take, List.length_drop]
  omega

theorem setSlice_append_left (xs ys src : List Nat) (off : Nat)
    (h : xs.length ≤ off) :
    setSlice (xs ++ ys) off src = xs ++ setSlice ys (off - xs.length) src := by
  simp only [setSlice, List.take_append_eq_append_take,
    List.drop_append_eq_append_drop, List.append_assoc]
  rw [List.take_of_length_le (by omega), List.drop_eq_nil_of_le (by omega)]
  simp only [List.nil_append]
  rw [show off + src.length - xs.length = off - xs.length + src.length by omega]

theorem setSlice_replicate (m j : Nat) (src : List Nat)
    (h : j + src.length ≤ m) :
    setSlice (List.replicate m (0 : Nat)) j src =
      List.replicate j 0 ++ src ++ List.replicate (m - j - src.length) 0 := by
  simp only [setSlice, List.take_replicate, List.drop_replicate]
  rw [Nat.min_eq_left (by omega), show m - (j + src.length) = m - j - src.length by omega]

theorem take_min_length (l : List Nat) (n : Nat) :
    l.take (min n l.length) = l.take n := by
  rcases le_total n l.length with h | h
  · rw [Nat.min_eq_left h]
  · rw [Nat.min_eq_right h, List.take_length, List.take_of_length_le h]

/-- The canonical decomposition of `Row::serialize`: the little-endian
id, then the username bytes truncated to 32 and zero-padded, then the
email bytes truncated to 255 and zero-padded. -/
theorem serialize_eq (r : Row) :
    r.serialize = u32ToLeBytes r.id
      ++ ((utf8Encode r.username).take 32
          ++ List.replicate (32 - (utf8Encode r.username).length) 0)
      ++ ((utf8Encode r.email).take 255
          ++ List.replicate (255 - (utf8Encode r.email).length) 0) := by
  have h4 : (u32ToLeBytes r.id).length = 4 := u32ToLeBytes_length r.id
  simp only [Row.serialize, USERNAME_OFFSET, EMAIL_OFFSET, USERNAME_SIZE,
    EMAIL_SIZE, ID_SIZE, ROW_SIZE]
  norm_num
  rw [take_min_length, take_min_length]
  set u := (utf8Encode r.username).take 32 with hu
  set e := (utf8Encode r.email).take 255 with he
  have hlu : u.length = min 32 (utf8Encode r.username).length := by
    rw [hu, List.length_take]
  have hle : e.length = min 255 (utf8Encode r.email).length := by
    rw [he, List.length_take]
  have h1 : setSlice (List.replicate 291 (0 : Nat)) 0 (u32ToLeBytes r.id) =
      u32ToLeBytes r.id ++ List.replicate 287 0 := by
    rw [setSlice_replicate 291 0 _ (by rw [h4]; omega), h4]
    norm_num
  have h2 : setSlice (u32ToLeBytes r.id ++ List.replicate 287 0) 4 u =
      u32ToLeBytes r.id ++ (u ++ List.replicate (287 - u.length) 0) := by
    rw [setSlice_append_left _ _ _ _ (le_of_eq h4), h4]
    norm_num
    rw [setSlice_replicate 287 0 _ (by omega)]
    norm_num
  have h3 : setSlice
      (u32ToLeBytes r.id ++ (u ++ List.replicate (287 - u.length) 0)) 36 e =
      u32ToLeBytes r.id ++ (u ++ (List.replicate (32 - u.length) 0 ++
        (e ++ List.replicate (255 - e.length) 0))) := by
    rw [setSlice_append_left _ _ _ _ (by rw [h4]; decide), h4]
    rw [show (36 : Nat) - 4 = 32 from rfl]
    rw [setSlice_append_left _ _ _ _ (by omega)]
    rw [setSlice_replicate (287 - u.length) (32 - u.length) _ (by omega)]
    rw [show 287 - u.length - (32 - u.length) - e.length = 255 - e.length
      by omega]
    simp [List.append_assoc]
  rw [h1, h2, h3]
  rw [show 32 - u.length = 32 - (utf8Encode r.username).length by omega,
    show 255 - e.length = 255 - (utf8Encode r.email).length by omega]

/-! ## The UTF-8 codec inverts itself on valid scalars -/

theorem isScalar_iff (c : Nat) :
    isScalar c = true ↔ c < 0x110000 ∧ ¬(0xD800 ≤ c ∧ c < 0xE000) := by
  simp only [isScalar, Bool.and_eq_true, Bool.not_eq_true',
    Bool.and_eq_false_iff, decide_eq_true_eq, decide_eq_false_iff_not]
  omega

theorem utf8EncodeChar_ne_nil (c : Nat) : utf8EncodeChar c ≠ [] := by
  simp only [utf8EncodeChar]
  split_ifs <;> simp

theorem utf8DecodeChar_encodeChar (c : Nat) (h : isScalar c = true)
    (rest : List Nat) :
    utf8DecodeChar (utf8EncodeChar c ++ rest) = some (c, rest) := by
  have hc := (isScalar_iff c).mp h
  by_cases h1 : c < 0x80
  · simp only [utf8EncodeChar, if_pos h1, List.cons_append, List.nil_append]
    simp only [utf8DecodeChar]
    rw [if_pos h1]
  · by_cases h2 : c < 0x800
    · simp only [utf8EncodeChar, if_neg h1, if_pos h2, List.cons_append,
        List.nil_append]
      simp only [utf8DecodeChar]
      rw [if_neg (by omega), if_neg (by omega), if_pos (by omega)]
      rw [if_pos (by
        simp only [isCont, Bool.and_eq_true, decide_eq_true_eq]
        omega)]
      rw [show (0xC0 + c / 64 - 0xC0) * 64 + (0x80 + c % 64 - 0x80) = c
        by omega]
    · by_cases h3 : c < 0x10000
      · simp only [utf8EncodeChar, if_neg h1, if_neg h2, if_pos h3,
          List.cons_append, List.nil_append]
        simp only [utf8DecodeChar]
        rw [if_neg (by omega), if_neg (by omega), if_neg (by omega),
          if_pos (by omega)]
        rw [if_pos (by
          simp only [isCont, Bool.and_eq_true, Bool.or_eq_true,
            decide_eq_true_eq]
          omega)]
        rw [show (0xE0 + c / 4096 - 0xE0) * 4096 +
          (0x80 + c / 64 % 64 - 0x80) * 64 + (0x80 + c % 64 - 0x80) = c
          by omega]
      · simp only [utf8EncodeChar, if_neg h1, if_neg h2, if_neg h3,
          List.cons_append, List.nil_append]
        simp only [utf8DecodeChar]
        rw [if_neg (by omega), if_neg (by omega), if_neg (by omega),
          if_neg (by omega), if_pos (by omega)]
        rw [if_pos (by
          simp only [isCont, Bool.and_eq_true, Bool.or_eq_true,
            decide_eq_true_eq]
          omega)]
        rw [show (0xF0 + c / 0x40000 - 0xF0) * 0x40000 +
          (0x80 + c / 4096 % 64 - 0x80) * 4096 +
          (0x80 + c / 64 % 64 - 0x80) * 64 + (0x80 + c % 64 - 0x80) = c
          by omega]

theorem utf8DecodeChar_length {l : List Nat} {c : Nat} {r : List Nat}
    (h : utf8DecodeChar l = some (c, r)) : r.length < l.length := by
  match l with
  | [] => simp [utf8DecodeChar] at h
  | b :: rest =>
    simp only [utf8DecodeChar] at h
    by_cases h1 : b < 0x80
    · rw [if_pos h1] at h
      simp only [Option.some.injEq, Prod.mk.injEq] at h
      rw [← h.2]
      simp
    · rw [if_neg h1] at h
      by_cases h2 : b < 0xC2
      · rw [if_pos h2] at h
        simp at h
      · rw [if_neg h2] at h
        by_cases h3 : b < 0xE0
        · rw [if_pos h3] at h
          match rest with
          | [] => simp at h
          | c1 :: r1 =>
            dsimp only at h
            split_ifs at h
            simp only [Option.some.injEq, Prod.mk.injEq] at h
            rw [← h.2]
            simp
            omega
        · rw [if_neg h3] at h
          by_cases h4 : b < 0xF0
          · rw [if_pos h4] at h
            match rest with
            | [] => simp at h
            | [c1] => simp at h
            | c1 :: c2 :: r2 =>
              dsimp only at h
              split_ifs at h
              simp only [Option.some.injEq, Prod.mk.injEq] at h
              rw [← h.2]
              simp
              omega
          · rw [if_neg h4] at h
            by_cases h5 : b < 0xF5
            · rw [if_pos h5] at h
              match rest with
              | [] => simp at h
              | [c1] => simp at h
              | [c1, c2] => simp at h
              | c1 :: c2 :: c3 :: r3 =>
                dsimp only at h
                split_ifs at h
                simp only [Option.some.injEq, Prod.mk.injEq] at h
                rw [← h.2]
                simp
                omega
            · rw [if_neg h5] at h
              simp at h

theorem utf8DecodeFuel_congr :
    ∀ f1 : Nat, ∀ f2 : Nat, ∀ l : List Nat,
      l.length ≤ f1 → l.length ≤ f2 →
      utf8DecodeFuel f1 l = utf8DecodeFuel f2 l := by
  intro f1
  induction f1 with
  | zero =>
    intro f2 l h1 _
    have : l = [] := List.eq_nil_of_length_eq_zero (by omega)
    subst this
    match f2 with
    | 0 => rfl
    | f + 1 => rfl
  | succ a ih =>
    intro f2 l h1 h2
    match l with
    | [] =>
      match f2 with
      | 0 => rfl
      | f + 1 => rfl
    | b :: rest =>
      match f2 with
      | 0 => simp at h2
      | f + 1 =>
        show (match utf8DecodeChar (b :: rest) with
          | none => none
          | some (c, r) => (utf8DecodeFuel a r).map (c :: ·)) =
          (match utf8DecodeChar (b :: rest) with
          | none => none
          | some (c, r) => (utf8DecodeFuel f r).map (c :: ·))
        match hdc : utf8DecodeChar (b :: rest) with
        | none => rfl
        | some (c, r) =>
          have hr : r.length < (b :: rest).length := utf8DecodeChar_length hdc
          simp only [List.length_cons] at hr h1 h2
          dsimp only
          rw [ih f r (by omega) (by omega)]

theorem utf8Decode_nil : utf8Decode [] = some [] := rfl

theorem utf8Decode_encodeChar_append (c : Nat) (h : isScalar c = true)
    (rest : List Nat) :
    utf8Decode (utf8EncodeChar c ++ rest) = (utf8Decode rest).map (c :: ·) := by
  obtain ⟨e0, tl, henc⟩ := List.exists_cons_of_ne_nil (utf8EncodeChar_ne_nil c)
  show utf8DecodeFuel (utf8EncodeChar c ++ rest).length
    (utf8EncodeChar c ++ rest) = (utf8Decode rest).map (c :: ·)
  rw [henc]
  simp only [List.cons_append, List.length_cons, List.length_append]
  show (match utf8DecodeChar (e0 :: (tl ++ rest)) with
    | none => none
    | some (c, r) => (utf8DecodeFuel (tl.length + rest.length) r).map (c :: ·)) =
    (utf8Decode rest).map (c :: ·)
  rw [show e0 :: (tl ++ rest) = (e0 :: tl) ++ rest from rfl, ← henc,
    utf8DecodeChar_encodeChar c h rest]
  dsimp only
  rw [utf8DecodeFuel_congr (tl.length + rest.length) rest.length rest
    (by omega) (le_refl _)]
  rfl

theorem utf8Decode_encode_append (s : List Nat) (h : ValidStr s = true)
    (rest : List Nat) :
    utf8Decode (utf8Encode s ++ rest) =
      (utf8Decode rest).map (s ++ ·) := by
  induction s with
  | nil =>
    simp only [utf8Encode, List.nil_append]
    rcases utf8Decode rest with _ | l <;> simp
  | cons c cs ih =>
    simp only [ValidStr, List.all_cons, Bool.and_eq_true] at h
    have hcs : ValidStr cs = true := h.2
    simp only [utf8Encode, List.append_assoc]
    rw [utf8Decode_encodeChar_append c h.1, ih hcs]
    rcases utf8Decode rest with _ | l <;> simp

theorem utf8Decode_encode (s : List Nat) (h : ValidStr s = true) :
    utf8Decode (utf8Encode s) = some s := by
  have h2 := utf8Decode_encode_append s h []
  rw [List.append_nil, utf8Decode_nil] at h2
  simpa using h2

/-! ## Zero-byte scanning -/

theorem zero_not_mem_encodeChar (c : Nat) (hc : c ≠ 0) :
    0 ∉ utf8EncodeChar c := by
  simp only [utf8EncodeChar]
  split_ifs <;> simp <;> omega

theorem get_nul_position_append (xs ys : List Nat) (h : 0 ∉ xs) :
    get_nul_position (xs ++ ys) = xs.length + get_nul_position ys := by
  induction xs with
  | nil => simp
  | cons a l ih =>
    simp only [List.mem_cons, not_or] at h
    rw [List.cons_append, get_nul_position]
    rw [if_neg (show ¬a = 0 by omega), ih h.2, List.length_cons]
    omega

theorem get_nul_position_replicate (k : Nat) :
    get_nul_position (List.replicate k (0 : Nat)) = 0 := by
  match k with
  | 0 => rfl
  | n + 1 => simp [List.replicate, get_nul_position]

theorem take_nul_encode (s : List Nat) (h : ValidStr s = true) (k : Nat) :
    (utf8Encode s ++ List.replicate k 0).take
      (get_nul_position (utf8Encode s ++ List.replicate k 0)) =
    utf8Encode (s.takeWhile (fun c => c != 0)) := by
  induction s with
  | nil =>
    simp [utf8Encode, get_nul_position_replicate]
  | cons c cs ih =>
    simp only [ValidStr, List.all_cons, Bool.and_eq_true] at h
    by_cases hc : c = 0
    · subst hc
      have henc : utf8EncodeChar 0 = [0] := rfl
      simp only [utf8Encode, henc, List.cons_append, List.nil_append,
        get_nul_position, if_pos rfl, List.take_zero, List.takeWhile]
      simp [utf8Encode]
    · have hnm : 0 ∉ utf8EncodeChar c := zero_not_mem_encodeChar c hc
      have hl : utf8Encode (c :: cs) ++ List.replicate k 0 =
          utf8EncodeChar c ++ (utf8Encode cs ++ List.replicate k 0) := by
        simp [utf8Encode, List.append_assoc]
      rw [hl, get_nul_position_append _ _ hnm, List.take_append]
      rw [ih (by simpa [ValidStr] using h.2)]
      rw [List.takeWhile_cons_of_pos (by simp [hc])]
      simp [utf8Encode]

theorem ValidStr_takeWhile (s : List Nat) (h : ValidStr s = true)
    (p : Nat → Bool) : ValidStr (s.takeWhile p) = true := by
  simp only [ValidStr, List.all_eq_true] at h ⊢
  intro x hx
  exact h x ((List.takeWhile_sublist p).subset hx)

theorem takeWhile_ne_zero_eq_self (s : List Nat) (h : 0 ∉ s) :
    s.takeWhile (fun c => c != 0) = s := by
  rw [List.takeWhile_eq_self_iff]
  intro x hx
  simp only [bne_iff_ne, ne_eq]
  intro h0
  exact h (h0 ▸ hx)

/-! ## Deserialization inverts serialization -/

theorem deserialize_serialize (r : Row) (hid : r.id < 2 ^ 32)
    (hu : ValidStr r.username = true) (he : ValidStr r.email = true)
    (hul : (utf8Encode r.username).length ≤ 32)
    (hel : (utf8Encode r.email).length ≤ 255) :
    Row.deserialize r.serialize =
      .ok ⟨r.id, r.username.takeWhile (fun c => c != 0),
        r.email.takeWhile (fun c => c != 0)⟩ := by
  have h4 := u32ToLeBytes_length r.id
  have hser := serialize_eq r
  rw [List.take_of_length_le hul, List.take_of_length_le hel] at hser
  set ub := utf8Encode r.username with hub
  set eb := utf8Encode r.email with heb
  set U := ub ++ List.replicate (32 - ub.length) 0 with hU
  set E := eb ++ List.replicate (255 - eb.length) 0 with hE
  have hUlen : U.length = 32 := by
    rw [hU, List.length_append, List.length_replicate]
    omega
  have hElen : E.length = 255 := by
    rw [hE, List.length_append, List.length_replicate]
    omega
  have hlen : r.serialize.length = ROW_SIZE := by
    rw [hser, List.length_append, List.length_append, h4, hUlen, hElen]
    rfl
  have e1 : (r.serialize.drop USERNAME_OFFSET).take USERNAME_SIZE = U := by
    rw [hser, List.append_assoc, show (USERNAME_OFFSET : Nat) = 4 from rfl,
      List.drop_left' h4, show (USERNAME_SIZE : Nat) = 32 from rfl,
      List.take_left' hUlen]
  have e2 : (r.serialize.drop EMAIL_OFFSET).take EMAIL_SIZE = E := by
    rw [hser, show (EMAIL_OFFSET : Nat) = 36 from rfl,
      List.drop_left' (by rw [List.length_append, h4, hUlen]),
      show (EMAIL_SIZE : Nat) = 255 from rfl]
    exact List.take_of_length_le (by rw [hElen])
  have hveru := ValidStr_takeWhile r.username hu (fun c => c != 0)
  have hvere := ValidStr_takeWhile r.email he (fun c => c != 0)
  have hnulu : U.take (get_nul_position U) =
      utf8Encode (r.username.takeWhile (fun c => c != 0)) := by
    rw [hU, hub]
    exact take_nul_encode r.username hu _
  have hnule : E.take (get_nul_position E) =
      utf8Encode (r.email.takeWhile (fun c => c != 0)) := by
    rw [hE, heb]
    exact take_nul_encode r.email he _
  have e3 : u32FromLeBytes (r.serialize.getD 0 0) (r.serialize.getD 1 0)
      (r.serialize.getD 2 0) (r.serialize.getD 3 0) = r.id := by
    have hcons : r.serialize = (r.id % 256) :: (r.id / 256 % 256) ::
        (r.id / 65536 % 256) :: (r.id / 16777216 % 256) :: (U ++ E) := by
      rw [hser, List.append_assoc]
      rfl
    rw [hcons]
    simp only [List.getD_cons_zero, List.getD_cons_succ]
    unfold u32FromLeBytes
    omega
  simp only [Row.deserialize]
  rw [if_neg (by simp [hlen])]
  rw [e1, e2, e3, hnulu, utf8Decode_encode _ hveru]
  dsimp only
  rw [hnule, utf8Decode_encode _ hvere]

theorem serialize_length (r : Row) : r.serialize.length = ROW_SIZE := by
  rw [serialize_eq, List.length_append, List.length_append,
    u32ToLeBytes_length, List.length_append, List.length_append,
    List.length_take, List.length_take, List.length_replicate,
    List.length_replicate]
  rw [show (ROW_SIZE : Nat) = 291 from rfl]
  omega

/-! ## Reading windows of a buffer after `setSlice` -/

theorem take_drop_append (xs ys : List Nat) (a la : Nat)
    (h : a + la ≤ xs.length) :
    ((xs ++ ys).drop a).take la = (xs.drop a).take la := by
  rw [List.drop_append_eq_append_drop, List.take_append_eq_append_take]
  rw [show a - xs.length = 0 by omega, List.drop_zero, List.length_drop,
    show la - (xs.length - a) = 0 by omega, List.take_zero, List.append_nil]

theorem setSlice_read_self (p src : List Nat) (off : Nat)
    (h : off + src.length ≤ p.length) :
    ((setSlice p off src).drop off).take src.length = src := by
  simp only [setSlice, List.append_assoc]
  rw [List.drop_left' (by rw [List.length_take]; omega), List.take_left]

theorem setSlice_read_left (p src : List Nat) (off a la : Nat)
    (ha : a + la ≤ off) (h : off ≤ p.length) :
    ((setSlice p off src).drop a).take la = (p.drop a).take la := by
  simp only [setSlice, List.append_assoc]
  rw [take_drop_append _ _ _ _ (by rw [List.length_take]; omega)]
  rw [List.drop_take, List.take_take, Nat.min_eq_left (by omega)]

theorem setSlice_read_right (p src : List Nat) (off a la : Nat)
    (ha : off + src.length ≤ a) (h : off ≤ p.length) :
    ((setSlice p off src).drop a).take la = (p.drop a).take la := by
  simp only [setSlice]
  rw [show p.take off ++ src ++ p.drop (off + src.length) =
    (p.take off ++ src) ++ p.drop (off + src.length) from by
      simp [List.append_assoc]]
  have hXlen : (p.take off ++ src).length = off + src.length := by
    rw [List.length_append, List.length_take]
    omega
  rw [List.drop_append_eq_append_drop,
    List.drop_eq_nil_of_le (by rw [hXlen]; omega), List.nil_append, hXlen,
    List.drop_drop, show off + src.length + (a - (off + src.length)) = a
      by omega]

theorem replicate_window (n a la : Nat) (h : a + la ≤ n) :
    ((List.replicate n (0 : Nat)).drop a).take la = List.replicate la 0 := by
  rw [List.drop_replicate, List.take_replicate, Nat.min_eq_left (by omega)]

/-! ## `getD` bookkeeping -/

theorem getD_set_self (l : List (List Nat)) (i : Nat) (a d : List Nat)
    (h : i < l.length) : (l.set i a).getD i d = a := by
  simp [List.getD_eq_getElem?_getD, List.getElem?_set_self, h]

theorem getD_set_ne (l : List (List Nat)) (i j : Nat) (a d : List Nat)
    (h : i ≠ j) : (l.set i a).getD j d = l.getD j d := by
  simp [List.getD_eq_getElem?_getD, List.getElem?_set_ne h]

theorem getD_append_left (l1 l2 : List (List Nat)) (j : Nat) (d : List Nat)
    (h : j < l1.length) : (l1 ++ l2).getD j d = l1.getD j d := by
  simp [List.getD_eq_getElem?_getD, List.getElem?_append_left h]

theorem getD_concat_self (l : List (List Nat)) (a d : List Nat) :
    (l ++ [a]).getD l.length d = a := by
  simp [List.getD_eq_getElem?_getD]

theorem get?_eq_some_getD (l : List (List Nat)) (i : Nat) (d : List Nat)
    (h : i < l.length) : l.get? i = some (l.getD i d) := by
  simp [List.getD_eq_getElem?_getD, List.getElem?_eq_getElem h]

theorem PAGE_SIZE_eq : PAGE_SIZE = 4096 := rfl

theorem TABLE_MAX_PAGES_eq : TABLE_MAX_PAGES = 100 := rfl

/-! ## Reduction of `insert_row` -/

theorem insert_row_eq_add (t : Table) (r : Row)
    (hcap : t.num_rows / ROWS_PER_PAGE ≤ TABLE_MAX_PAGES)
    (heq : t.num_rows / ROWS_PER_PAGE = t.pages.length) :
    t.insert_row r = .ok ⟨(t.pages ++ [List.replicate PAGE_SIZE 0]).set
      (t.num_rows / ROWS_PER_PAGE)
      (setSlice (List.replicate PAGE_SIZE 0)
        (t.num_rows % ROWS_PER_PAGE * ROW_SIZE) r.serialize),
      t.num_rows + 1⟩ := by
  simp only [Table.insert_row, Table.row_position, Table.add_page]
  rw [if_neg (by omega), if_pos (by omega)]
  rw [get?_eq_some_getD _ _ [] (by rw [List.length_append, heq]; simp)]
  rw [heq, getD_concat_self]

theorem insert_row_eq_noadd (t : Table) (r : Row)
    (hcap : t.num_rows / ROWS_PER_PAGE ≤ TABLE_MAX_PAGES)
    (hlt : t.num_rows / ROWS_PER_PAGE < t.pages.length) :
    t.insert_row r = .ok ⟨t.pages.set (t.num_rows / ROWS_PER_PAGE)
      (setSlice (t.pages.getD (t.num_rows / ROWS_PER_PAGE) [])
        (t.num_rows % ROWS_PER_PAGE * ROW_SIZE) r.serialize),
      t.num_rows + 1⟩ := by
  simp only [Table.insert_row, Table.row_position]
  rw [if_neg (by omega), if_neg (by omega)]
  rw [get?_eq_some_getD _ _ [] hlt]

theorem insert_row_eq_full (t : Table) (r : Row)
    (hcap : TABLE_MAX_PAGES < t.num_rows / ROWS_PER_PAGE) :
    t.insert_row r = .err "Reached max number of pages" t := by
  simp only [Table.insert_row, Table.row_position]
  rw [if_pos (by omega)]

theorem slotBytes_def (t : Table) (pos : Nat) :
    t.slotBytes pos = ((t.pages.getD (pos / ROWS_PER_PAGE) []).drop
      (pos % ROWS_PER_PAGE * ROW_SIZE)).take ROW_SIZE := rfl

theorem slot_window_frame (page src : List Nat) (i j : Nat)
    (hij : i ≠ j) (hi : i < 14) (hj : j < 14) (hsrc : src.length = 291)
    (hp : page.length = 4096) :
    ((setSlice page (i * 291) src).drop (j * 291)).take 291 =
      (page.drop (j * 291)).take 291 := by
  rcases Nat.lt_or_ge j i with hlt | hge
  · exact setSlice_read_left page src _ _ _ (by omega) (by omega)
  · have hij2 : i < j := by omega
    exact setSlice_read_right page src _ _ _ (by rw [hsrc]; omega) (by omega)

theorem slot_window_self (page src : List Nat) (i : Nat) (hi : i < 14)
    (hsrc : src.length = 291) (hp : page.length = 4096) :
    ((setSlice page (i * 291) src).drop (i * 291)).take 291 = src := by
  have h := setSlice_read_self page src (i * 291) (by omega)
  rw [hsrc] at h
  exact h

theorem slot_window_zero (src : List Nat) (i j : Nat)
    (hij : i ≠ j) (hi : i < 14) (hj : j < 14) (hsrc : src.length = 291) :
    ((setSlice (List.replicate 4096 0) (i * 291) src).drop (j * 291)).take 291 =
      List.replicate 291 0 := by
  rw [slot_window_frame _ src i j hij hi hj hsrc (by
    rw [List.length_replicate])]
  exact replicate_window 4096 _ 291 (by omega)

/-! ## The effect of a successful insertion -/

theorem Inv_def14 (t : Table) : Inv t ↔
    (t.pages.length = (t.num_rows + 13) / 14 ∧
     (∀ i, i < t.pages.length → (t.pages.getD i []).length = 4096) ∧
     (∀ pos, t.num_rows ≤ pos → pos / 14 < t.pages.length →
       ((t.pages.getD (pos / 14) []).drop (pos % 14 * 291)).take 291 =
         List.replicate 291 0)) := Iff.rfl

theorem insert_ok_spec (t : Table) (r : Row) (hInv : Inv t)
    (hcap : t.num_rows / 14 ≤ 100) :
    ∃ t', t.insert_row r = InsertResult.ok t' ∧
      t'.num_rows = t.num_rows + 1 ∧
      t'.pages.length = (t.num_rows + 14) / 14 ∧
      t'.pages.length ≤ t.pages.length + 1 ∧
      t'.slotBytes t.num_rows = r.serialize ∧
      (∀ pos, pos ≠ t.num_rows → pos / 14 < t.pages.length →
        t'.slotBytes pos = t.slotBytes pos) ∧
      Inv t' := by
  rw [Inv_def14] at hInv
  obtain ⟨hL, hPg, hZ⟩ := hInv
  have h291 : r.serialize.length = 291 := serialize_length r
  have hmod14 : t.num_rows % 14 < 14 := by omega
  by_cases hge : t.pages.length ≤ t.num_rows / 14
  · -- a fresh page is appended; the row lands at offset 0 of the new page
    have heq : t.num_rows / 14 = t.pages.length := by omega
    have hmod : t.num_rows % 14 = 0 := by omega
    refine ⟨⟨(t.pages ++ [List.replicate 4096 0]).set (t.num_rows / 14)
      (setSlice (List.replicate 4096 0) (t.num_rows % 14 * 291) r.serialize),
      t.num_rows + 1⟩,
      insert_row_eq_add t r hcap heq, rfl, ?_, ?_, ?_, ?_, ?_⟩
    · try dsimp only
      rw [List.length_set, List.length_append]
      simp only [List.length_singleton]
      omega
    · try dsimp only
      rw [List.length_set, List.length_append]
      simp only [List.length_singleton]
      omega
    · rw [slotBytes_def]
      simp only [ROWS_PER_PAGE_eq, ROW_SIZE_eq]
      try dsimp only
      rw [getD_set_self _ _ _ _ (by
        rw [List.length_append]
        simp only [List.length_singleton]
        omega)]
      exact slot_window_self (List.replicate 4096 0) r.serialize
        (t.num_rows % 14) hmod14 h291 (by rw [List.length_replicate])
    · intro pos hne hplt
      rw [slotBytes_def, slotBytes_def]
      simp only [ROWS_PER_PAGE_eq, ROW_SIZE_eq]
      try dsimp only
      rw [getD_set_ne _ _ _ _ _ (by omega)]
      rw [getD_append_left _ _ _ _ (by omega)]
    · rw [Inv_def14]
      refine ⟨?_, ?_, ?_⟩
      · try dsimp only
        rw [List.length_set, List.length_append]
        simp only [List.length_singleton]
        omega
      · intro i hi
        try dsimp only at hi ⊢
        rw [List.length_set, List.length_append] at hi
        simp only [List.length_singleton] at hi
        by_cases hieq : i = t.num_rows / 14
        · subst hieq
          rw [getD_set_self _ _ _ _ (by
            rw [List.length_append]
            simp only [List.length_singleton]
            omega)]
          rw [setSlice_length _ _ _ (by
            rw [List.length_replicate, h291]
            omega)]
          rw [List.length_replicate]
        · rw [getD_set_ne _ _ _ _ _ (by omega)]
          by_cases hiL : i < t.pages.length
          · rw [getD_append_left _ _ _ _ hiL]
            exact hPg i hiL
          · have hieq2 : i = t.pages.length := by omega
            subst hieq2
            rw [getD_concat_self]
            rw [List.length_replicate]
      · intro pos hge2 hlt2
        try dsimp only at hge2 hlt2 ⊢
        rw [List.length_set, List.length_append] at hlt2
        simp only [List.length_singleton] at hlt2
        by_cases hpq : pos / 14 = t.num_rows / 14
        · rw [hpq, getD_set_self _ _ _ _ (by
            rw [List.length_append]
            simp only [List.length_singleton]
            omega)]
          exact slot_window_zero r.serialize (t.num_rows % 14) (pos % 14)
            (by omega) hmod14 (by omega) h291
        · rw [getD_set_ne _ _ _ _ _ (by omega)]
          rw [getD_append_left _ _ _ _ (by omega)]
          exact hZ pos (by omega) (by omega)
  · -- the target page already exists
    have hlt : t.num_rows / 14 < t.pages.length := by omega
    have hmodne0 : t.num_rows % 14 ≠ 0 := by omega
    have hplen : (t.pages.getD (t.num_rows / 14) []).length = 4096 :=
      hPg _ hlt
    refine ⟨⟨t.pages.set (t.num_rows / 14)
      (setSlice (t.pages.getD (t.num_rows / 14) [])
        (t.num_rows % 14 * 291) r.serialize), t.num_rows + 1⟩,
      insert_row_eq_noadd t r hcap hlt, rfl, ?_, ?_, ?_, ?_, ?_⟩
    · try dsimp only
      rw [List.length_set]
      omega
    · try dsimp only
      rw [List.length_set]
      omega
    · rw [slotBytes_def]
      simp only [ROWS_PER_PAGE_eq, ROW_SIZE_eq]
      try dsimp only
      rw [getD_set_self _ _ _ _ (by omega)]
      exact slot_window_self _ r.serialize (t.num_rows % 14) hmod14 h291 hplen
    · intro pos hne hplt
      rw [slotBytes_def, slotBytes_def]
      simp only [ROWS_PER_PAGE_eq, ROW_SIZE_eq]
      try dsimp only
      by_cases hpq : pos / 14 = t.num_rows / 14
      · rw [hpq, getD_set_self _ _ _ _ (by omega)]
        rw [← hpq]
        refine Eq.trans (slot_window_frame _ r.serialize (t.num_rows % 14)
          (pos % 14) (by omega) hmod14 (by omega) h291
          (by rw [hpq]; exact hplen)) ?_
        rw [hpq]
      · rw [getD_set_ne _ _ _ _ _ (by omega)]
    · rw [Inv_def14]
      refine ⟨?_, ?_, ?_⟩
      · try dsimp only
        rw [List.length_set]
        omega
      · intro i hi
        try dsimp only at hi ⊢
        rw [List.length_set] at hi
        by_cases hieq : i = t.num_rows / 14
        · subst hieq
          rw [getD_set_self _ _ _ _ (by omega)]
          rw [setSlice_length _ _ _ (by rw [hplen, h291]; omega)]
          exact hplen
        · rw [getD_set_ne _ _ _ _ _ (by omega)]
          exact hPg i hi
      · intro pos hge2 hlt2
        try dsimp only at hge2 hlt2 ⊢
        rw [List.length_set] at hlt2
        by_cases hpq : pos / 14 = t.num_rows / 14
        · rw [hpq, getD_set_self _ _ _ _ (by omega)]
          rw [slot_window_frame _ r.serialize (t.num_rows % 14) (pos % 14)
            (by omega) hmod14 (by omega) h291 hplen]
          have hq := hZ pos (by omega) (by omega)
          rw [hpq] at hq
          exact hq
        · rw [getD_set_ne _ _ _ _ _ (by omega)]
          exact hZ pos (by omega) (by omega)

theorem Inv_new : Inv Table.new := by
  rw [Inv_def14]
  refine ⟨rfl, ?_, ?_⟩
  · intro i hi
    simp [Table.new] at hi
  · intro pos h1 h2
    simp [Table.new] at h2

theorem insert_row_err_elim (t : Table) (r : Row) (msg : String)
    (t'' : Table) (h : t.insert_row r = .err msg t'') :
    t'' = t ∧ 100 < t.num_rows / 14 := by
  by_cases hcap : t.num_rows / 14 ≤ 100
  · exfalso
    simp only [Table.insert_row, Table.row_position, ROWS_PER_PAGE_eq,
      TABLE_MAX_PAGES_eq] at h
    rw [if_neg (by omega)] at h
    split at h <;> simp at h
  · have hfull := insert_row_eq_full t r (by
      rw [ROWS_PER_PAGE_eq, TABLE_MAX_PAGES_eq]
      omega)
    rw [hfull] at h
    refine ⟨?_, by omega⟩
    injection h with h1 h2
    exact h2.symm

theorem insert_row_ne_panicked (t : Table) (r : Row) (hInv : Inv t) :
    t.insert_row r ≠ InsertResult.panicked := by
  by_cases hcap : t.num_rows / 14 ≤ 100
  · obtain ⟨t', h1, _⟩ := insert_ok_spec t r hInv hcap
    rw [h1]
    simp
  · rw [insert_row_eq_full t r (by
      rw [ROWS_PER_PAGE_eq, TABLE_MAX_PAGES_eq]
      omega)]
    simp

theorem insert_ok_inv (t t' : Table) (r : Row) (hInv : Inv t)
    (h : t.insert_row r = .ok t') :
    t'.num_rows = t.num_rows + 1 ∧
    t'.pages.length = (t.num_rows + 14) / 14 ∧
    t'.pages.length ≤ t.pages.length + 1 ∧
    t'.slotBytes t.num_rows = r.serialize ∧
    (∀ pos, pos ≠ t.num_rows → pos / 14 < t.pages.length →
      t'.slotBytes pos = t.slotBytes pos) ∧
    Inv t' := by
  by_cases hcap : t.num_rows / 14 ≤ 100
  · obtain ⟨t'', h1, hrest⟩ := insert_ok_spec t r hInv hcap
    rw [h1] at h
    injection h with h2
    rw [← h2]
    exact hrest
  · rw [insert_row_eq_full t r (by
      rw [ROWS_PER_PAGE_eq, TABLE_MAX_PAGES_eq]
      omega)] at h
    simp at h

theorem reachable_inv (t : Table) (h : Reachable t) : Inv t := by
  induction h with
  | new => exact Inv_new
  | insert_ok t0 t' r hWF hre heq ih =>
    exact (insert_ok_inv t0 t' r ih heq).2.2.2.2.2

/-! ## Reduction of `select_row` -/

theorem select_row_eq (t : Table) (pos : Nat)
    (hp : pos / 14 < t.pages.length) :
    t.select_row pos = (match Row.deserialize (t.slotBytes pos) with
      | .error e => SelectResult.panicked e
      | .ok row => SelectResult.found row) := by
  simp only [Table.select_row, Table.row_position, ROWS_PER_PAGE_eq]
  rw [if_neg (by omega)]
  rfl

theorem select_row_absent_iff (t : Table) (pos : Nat) :
    t.select_row pos = SelectResult.absent ↔
      t.pages.length ≤ pos / ROWS_PER_PAGE := by
  simp only [Table.select_row, Table.row_position]
  constructor
  · intro h
    by_contra hc
    rw [if_neg hc] at h
    rcases hd : Row.deserialize (((t.pages.getD
        (pos / ROWS_PER_PAGE) []).drop
        (pos % ROWS_PER_PAGE * ROW_SIZE)).take ROW_SIZE) with e | row <;>
      rw [hd] at h <;> simp at h
  · intro h
    rw [if_pos h]

/-! ## Reduction of the iterator -/

theorem iterFrom_nil (t : Table) (pos : Nat) (h : t.num_rows ≤ pos) :
    t.iterFrom pos = [] := by
  rw [Table.iterFrom]
  rw [if_neg (by omega)]

theorem iterFrom_map (t : Table) (rs : List Row)
    (hnum : t.num_rows = rs.length)
    (hsel : ∀ i, i < rs.length →
      t.select_row i = .found (rs.getD i ⟨0, [], []⟩)) :
    ∀ p, t.iterFrom p = (rs.drop p).map SelectResult.found := by
  have key : ∀ k p, rs.length - p ≤ k →
      t.iterFrom p = (rs.drop p).map SelectResult.found := by
    intro k
    induction k with
    | zero =>
      intro p hp
      rw [iterFrom_nil t p (by omega), List.drop_eq_nil_of_le (by omega)]
      rfl
    | succ k ih =>
      intro p hp
      by_cases hlt : p < rs.length
      · rw [Table.iterFrom]
        rw [if_pos (by omega)]
        rw [hsel p hlt, ih (p + 1) (by omega)]
        rw [List.drop_eq_getElem_cons hlt, List.map_cons,
          List.getD_eq_getElem rs _ hlt]
      · rw [iterFrom_nil t p (by omega), List.drop_eq_nil_of_le (by omega)]
        rfl
  intro p
  exact key (rs.length - p) p (le_refl _)

/-! ## Repeated insertion -/

theorem insertAll_spec (rs : List Row) :
    ∀ t t', Inv t → t.insertAll rs = some t' →
      Inv t' ∧ t'.num_rows = t.num_rows + rs.length ∧
      (∀ i, i < rs.length →
        t'.slotBytes (t.num_rows + i) = (rs.getD i ⟨0, [], []⟩).serialize) ∧
      (∀ pos, pos < t.num_rows → t'.slotBytes pos = t.slotBytes pos) := by
  induction rs with
  | nil =>
    intro t t' hInv h
    simp only [Table.insertAll, Option.some.injEq] at h
    subst h
    exact ⟨hInv, by simp, by intro i hi; simp at hi, by intro pos hp; rfl⟩
  | cons r rs ih =>
    intro t t' hInv h
    simp only [Table.insertAll] at h
    cases hq : t.insert_row r with
    | err m t1 =>
      rw [hq] at h
      simp at h
    | panicked =>
      rw [hq] at h
      simp at h
    | ok t1 =>
    rw [hq] at h
    dsimp only at h
    obtain ⟨hn1, hpl1, hple1, hslot1, hframe1, hinv1⟩ :=
      insert_ok_inv t t1 r hInv hq
    obtain ⟨hinv', hnum', hslots', hframe'⟩ := ih t1 t' hinv1 h
    have hLt : t.pages.length = (t.num_rows + 13) / 14 :=
      ((Inv_def14 t).mp hInv).1
    refine ⟨hinv', by rw [hnum', hn1, List.length_cons]; omega, ?_, ?_⟩
    · intro i hi
      match i with
      | 0 =>
        have hf := hframe' t.num_rows (by omega)
        rw [Nat.add_zero, hf, hslot1]
        rfl
      | Nat.succ j =>
        have hs := hslots' j (by simp at hi; omega)
        rw [hn1] at hs
        rw [show t.num_rows + (j + 1) = t.num_rows + 1 + j by omega, hs]
        rfl
    · intro pos hp
      rw [hframe' pos (by omega), hframe1 pos (by omega) (by rw [hLt]; omega)]

theorem iterInsert_spec (r : Row) (n : Nat) (hn : n ≤ 1414) :
    Inv (iterInsert r n) ∧ (iterInsert r n).num_rows = n := by
  induction n with
  | zero => exact ⟨Inv_new, rfl⟩
  | succ k ih =>
    obtain ⟨hInv, hnum⟩ := ih (by omega)
    have hcap : (iterInsert r k).num_rows / 14 ≤ 100 := by
      rw [hnum]
      omega
    obtain ⟨t', h1, hn', hpl', hple', hslot', hframe', hInv'⟩ :=
      insert_ok_spec _ r hInv hcap
    simp only [iterInsert]
    rw [h1]
    exact ⟨hInv', by rw [hn', hnum]⟩

/-! ## Single-row tables (used by concrete counterexamples/witnesses) -/

theorem single_insert_eq (r : Row) :
    Table.new.insert_row r = InsertResult.ok
      ⟨[setSlice (List.replicate 4096 0) 0 r.serialize], 1⟩ :=
  insert_row_eq_add Table.new r (by decide) (by decide)

theorem single_slot (r : Row) :
    Table.slotBytes ⟨[setSlice (List.replicate 4096 0) 0 r.serialize], 1⟩ 0 =
      r.serialize := by
  rw [slotBytes_def]
  simp only [ROWS_PER_PAGE_eq, ROW_SIZE_eq]
  norm_num
  have hw := slot_window_self (List.replicate 4096 0) r.serialize 0 (by omega)
    (serialize_length r) (by rw [List.length_replicate])
  norm_num at hw
  exact hw

theorem single_select (r : Row) :
    Table.select_row ⟨[setSlice (List.replicate 4096 0) 0 r.serialize], 1⟩ 0 =
      (match Row.deserialize r.serialize with
       | .error e => SelectResult.panicked e
       | .ok row => SelectResult.found row) := by
  rw [select_row_eq _ 0 (by norm_num), single_slot r]

/-! ## The claims -/

/-- C1, counterexample: the claim that select after insert never aborts
is false as stated.  `c1row` is a well-formed `Row` (its username is
accepted as-is per §4.1 despite being 33 UTF-8 bytes); inserting it into
a fresh table succeeds, but `select_row 0` hits the `.unwrap()` on a
failed deserialization — the 32-byte truncation split the two-byte
`é`, leaving invalid UTF-8 — i.e. the process aborts. -/
theorem c1_counterexample :
    RowWF c1row ∧
    Table.new.insert_row c1row = InsertResult.ok c1table ∧
    c1table.select_row 0 = SelectResult.panicked "invalid utf-8 sequence" := by
  refine ⟨⟨by decide, by decide, by decide⟩, single_insert_eq c1row, ?_⟩
  have hs := single_select c1row
  have hd : Row.deserialize c1row.serialize =
      Except.error "invalid utf-8 sequence" := by decide
  rw [hd] at hs
  exact hs

/-- C1, amended: on any reachable table, `insert_row` never aborts, and
for a row whose username is at most 32 UTF-8 bytes and whose email is at
most 255 UTF-8 bytes (so that truncation cannot split a character), a
successful insert followed by select of the new row index returns a
result (`found`), never an abort. -/
theorem c1_no_abort_within_bounds :
    ∀ (t : Table) (r : Row), Reachable t → RowWF r →
    t.insert_row r ≠ InsertResult.panicked ∧
    (∀ t', (utf8Encode r.username).length ≤ 32 →
      (utf8Encode r.email).length ≤ 255 →
      t.insert_row r = InsertResult.ok t' →
      ∃ row, t'.select_row t.num_rows = SelectResult.found row) := by
  intro t r hre hWF
  have hInv := reachable_inv t hre
  refine ⟨insert_row_ne_panicked t r hInv, ?_⟩
  intro t' hul hel hins
  obtain ⟨hn, hpl, hple, hslot, hframe, hInv'⟩ := insert_ok_inv t t' r hInv hins
  have hip : t.num_rows / 14 < t'.pages.length := by
    rw [hpl]
    omega
  refine ⟨⟨r.id, r.username.takeWhile (fun c => c != 0),
    r.email.takeWhile (fun c => c != 0)⟩, ?_⟩
  rw [select_row_eq t' _ hip, hslot,
    deserialize_serialize r hWF.1 hWF.2.1 hWF.2.2 hul hel]

/-- C1, witness for the amended theorem at a concrete in-bounds row. -/
theorem c1_witness :
    Table.new.insert_row w1row ≠ InsertResult.panicked ∧
    (∃ row, w1table.select_row 0 = SelectResult.found row) := by
  have h := c1_no_abort_within_bounds Table.new w1row Reachable.new
    ⟨by decide, by decide, by decide⟩
  exact ⟨h.1, h.2 w1table (by decide) (by decide) (single_insert_eq w1row)⟩

/-- C2 (code bug): the claim matches `TABLE_MAX_PAGES`'s evident intent,
but the code's bound check is `page_num > TABLE_MAX_PAGES` instead of
`≥`.  After 1400 successful insertions of any row into a fresh table
(`num_rows = 1400`, i.e. pages 0..99 are full), the 1401st insertion —
row number 1400, needing page index 100 — does NOT fail with
`TableFull`: it succeeds and allocates a 101st page, exceeding
`TABLE_MAX_PAGES = 100`.  The first failing insertion is of row number
1414. -/
theorem c2_capacity_off_by_one : ∀ r : Row,
    (iterInsert r 1400).num_rows = 1400 ∧
    (∃ t', (iterInsert r 1400).insert_row r = InsertResult.ok t' ∧
      t'.num_pages = 101) ∧
    (iterInsert r 1414).num_rows = 1414 ∧
    (iterInsert r 1414).insert_row r =
      InsertResult.err "Reached max number of pages" (iterInsert r 1414) := by
  intro r
  obtain ⟨hInv, hnum⟩ := iterInsert_spec r 1400 (by omega)
  obtain ⟨hInv14, hnum14⟩ := iterInsert_spec r 1414 (by omega)
  refine ⟨hnum, ?_, hnum14, ?_⟩
  · obtain ⟨t', h1, hn', hpl', _⟩ := insert_ok_spec _ r hInv (by rw [hnum])
    refine ⟨t', h1, ?_⟩
    show t'.pages.length = 101
    rw [hpl', hnum]
  · exact insert_row_eq_full _ r (by
      rw [ROWS_PER_PAGE_eq, TABLE_MAX_PAGES_eq, hnum14]
      omega)

/-- C3, counterexample: the round-trip claim fails as stated.  `c3row`
has a 1-byte username (the NUL character U+0000), within every byte
bound, but the stored zero byte is read back as a terminator, so the
username deserializes to the empty string. -/
theorem c3_counterexample :
    RowWF c3row ∧
    (utf8Encode c3row.username).length ≤ 32 ∧
    (utf8Encode c3row.email).length ≤ 255 ∧
    Row.deserialize (Row.serialize c3row) ≠ Except.ok c3row := by
  exact ⟨⟨by decide, by decide, by decide⟩, by decide, by decide, by decide⟩

/-- C3, amended: round-trip holds for every `Row` whose username is at
most 32 UTF-8 bytes, whose email is at most 255 UTF-8 bytes, and whose
fields contain no NUL character. -/
theorem c3_round_trip : ∀ r : Row, RowWF r →
    (utf8Encode r.username).length ≤ 32 →
    (utf8Encode r.email).length ≤ 255 →
    0 ∉ r.username → 0 ∉ r.email →
    Row.deserialize (Row.serialize r) = Except.ok r := by
  intro r hWF hul hel hnu hne
  rw [deserialize_serialize r hWF.1 hWF.2.1 hWF.2.2 hul hel]
  rw [takeWhile_ne_zero_eq_self _ hnu, takeWhile_ne_zero_eq_self _ hne]

/-- C3, witness at a concrete NUL-free in-bounds row. -/
theorem c3_witness : Row.deserialize (Row.serialize w3row) =
    Except.ok w3row :=
  c3_round_trip w3row ⟨by decide, by decide, by decide⟩ (by decide)
    (by decide) (by decide) (by decide)

/-- C4: `select_row` returns `absent` exactly when the derived page
index is beyond the allocated pages (a capacity check, independent of
`num_rows`); and on any reachable table, selecting a row number whose
page is allocated but whose slot was never written (i.e. `num_rows ≤
pos`) yields the zero record `id = 0` with empty username and email,
not `absent`. -/
theorem c4_select_absent_vs_zero_slot :
    (∀ (t : Table) (pos : Nat),
      t.select_row pos = SelectResult.absent ↔ t.num_pages ≤ pos / 14) ∧
    (∀ (t : Table) (pos : Nat), Reachable t → t.num_rows ≤ pos →
      pos / 14 < t.num_pages →
      t.select_row pos = SelectResult.found ⟨0, [], []⟩) := by
  constructor
  · intro t pos
    exact select_row_absent_iff t pos
  · intro t pos hre hge hlt
    have hInv := reachable_inv t hre
    rw [Inv_def14] at hInv
    have hz : t.slotBytes pos = List.replicate 291 0 := hInv.2.2 pos hge hlt
    rw [select_row_eq t pos hlt, hz,
      show Row.deserialize (List.replicate 291 0) =
        Except.ok ⟨0, [], []⟩ from by decide]

/-- C4, witness: on the empty table select 5 is absent; on a one-row
reachable table, the allocated-but-unwritten slot 1 reads back as the
zero record. -/
theorem c4_witness :
    (Table.new.select_row 5 = SelectResult.absent ↔
      Table.new.num_pages ≤ 5 / 14) ∧
    c4table.select_row 1 = SelectResult.found ⟨0, [], []⟩ := by
  have hre : Reachable c4table :=
    Reachable.insert_ok Table.new c4table c4row
      ⟨by decide, by decide, by decide⟩ Reachable.new (single_insert_eq c4row)
  exact ⟨c4_select_absent_vs_zero_slot.1 Table.new 5,
    c4_select_absent_vs_zero_slot.2 c4table 1 hre (by decide) (by decide)⟩

/-- C5, counterexample: the insertion-order claim fails as stated.
`c3row` has in-bounds field lengths, but after inserting it into a
fresh table, `select 0` returns a record with an empty username (the
NUL was taken as terminator), not the inserted record. -/
theorem c5_counterexample :
    RowWF c3row ∧
    (utf8Encode c3row.username).length ≤ 32 ∧
    (utf8Encode c3row.email).length ≤ 255 ∧
    Table.new.insertAll [c3row] = some c5table ∧
    c5table.select_row 0 ≠ SelectResult.found c3row := by
  refine ⟨⟨by decide, by decide, by decide⟩, by decide, by decide, ?_, ?_⟩
  · simp only [Table.insertAll]
    rw [single_insert_eq c3row]
    rfl
  · have hs : c5table.select_row 0 =
        (match Row.deserialize c3row.serialize with
         | .error e => SelectResult.panicked e
         | .ok row => SelectResult.found row) := single_select c3row
    have hd : Row.deserialize c3row.serialize =
        Except.ok ⟨1, [], []⟩ := by decide
    rw [hd] at hs
    rw [hs]
    decide

/-- C5, amended: for any sequence of records that are well formed, have
in-bounds field byte lengths AND contain no NUL character, inserting
them into a fresh table in order makes `select (i-1)` yield the i-th
record, the iterator over the resulting table yields exactly those
records in order, and the iterator over the empty table yields nothing.
(The embedding is pure, so a second iteration pass is literally the
same value and cannot mutate the table.) -/
theorem c5_insertion_order : ∀ (rs : List Row) (t : Table),
    (∀ r ∈ rs, GoodRow r) →
    Table.new.insertAll rs = some t →
    (∀ i, i < rs.length →
      t.select_row i = SelectResult.found (rs.getD i ⟨0, [], []⟩)) ∧
    t.iterFrom 0 = rs.map SelectResult.found ∧
    Table.new.iterFrom 0 = [] := by
  intro rs t hgood hall
  obtain ⟨hInv, hnum, hslots, _⟩ := insertAll_spec rs Table.new t Inv_new hall
  have hnum' : t.num_rows = rs.length := by
    rw [hnum]
    show 0 + rs.length = rs.length
    omega
  rw [Inv_def14] at hInv
  have hsel : ∀ i, i < rs.length →
      t.select_row i = SelectResult.found (rs.getD i ⟨0, [], []⟩) := by
    intro i hi
    have hip : i / 14 < t.pages.length := by
      rw [hInv.1, hnum']
      omega
    have hsl := hslots i hi
    have hzero : Table.new.num_rows + i = i := by
      show 0 + i = i
      omega
    rw [hzero] at hsl
    have hmem : rs.getD i ⟨0, [], []⟩ ∈ rs := by
      rw [List.getD_eq_getElem rs _ hi]
      exact List.getElem_mem hi
    have hg := hgood _ hmem
    rw [select_row_eq t i hip, hsl,
      deserialize_serialize _ hg.1.1 hg.1.2.1 hg.1.2.2 hg.2.1 hg.2.2.1,
      takeWhile_ne_zero_eq_self _ hg.2.2.2.1,
      takeWhile_ne_zero_eq_self _ hg.2.2.2.2]
  refine ⟨hsel, ?_, iterFrom_nil Table.new 0 (by decide)⟩
  have h := iterFrom_map t rs hnum' hsel 0
  rw [List.drop_zero] at h
  exact h

/-- C5, witness for the amended theorem at a one-record sequence. -/
theorem c5_witness :
    Table.new.insertAll [w3row] = some w3table ∧
    w3table.select_row 0 = SelectResult.found w3row ∧
    w3table.iterFrom 0 = [SelectResult.found w3row] := by
  have hgood : ∀ r ∈ [w3row], GoodRow r := by
    intro r hr
    simp only [List.mem_singleton] at hr
    subst hr
    exact ⟨⟨by decide, by decide, by decide⟩, by decide, by decide,
      by decide, by decide⟩
  have hall : Table.new.insertAll [w3row] = some w3table := by
    simp only [Table.insertAll]
    rw [single_insert_eq w3row]
    rfl
  have h := c5_insertion_order [w3row] w3table hgood hall
  exact ⟨hall, h.1 0 (by decide), h.2.1⟩

/-- C6: for every `Row` — however long its strings — the serialized
buffer is exactly 291 bytes: the 4 little-endian id bytes, the username
bytes truncated to 32 and zero-padded to 32, then the email bytes
truncated to 255 and zero-padded to 255. -/
theorem c6_serialize_layout : ∀ r : Row,
    r.serialize.length = 291 ∧
    r.serialize = u32ToLeBytes r.id
      ++ ((utf8Encode r.username).take 32
          ++ List.replicate (32 - (utf8Encode r.username).length) 0)
      ++ ((utf8Encode r.email).take 255
          ++ List.replicate (255 - (utf8Encode r.email).length) 0) := by
  intro r
  exact ⟨serialize_length r, serialize_eq r⟩

/-- C7: `row_position` is pure unconditional arithmetic:
`(n / 14, (n % 14) * 291)` for every `n`, with the spec's concrete
instances, including page index `TABLE_MAX_PAGES + 1` for row number
`(TABLE_MAX_PAGES + 1) * 14` (no bounds checking). -/
theorem c7_row_position :
    (∀ n : Nat, Table.row_position n = (n / 14, n % 14 * 291)) ∧
    Table.row_position 0 = (0, 0) ∧
    Table.row_position 14 = (1, 0) ∧
    Table.row_position 24 = (1, 10 * 291) ∧
    Table.row_position ((TABLE_MAX_PAGES + 1) * 14) =
      (TABLE_MAX_PAGES + 1, 0) := by
  exact ⟨fun n => rfl, by decide, by decide, by decide, by decide⟩

/-- C8: `from_string` fails exactly when the input does not split into
exactly 3 whitespace-delimited tokens or the first token does not parse
as a `u32`; otherwise it succeeds with the parsed id and the second and
third tokens as username and email — including the spec's three
concrete examples. -/
theorem c8_parse_record :
    (∀ s : List Nat,
      ((∃ e, Row.from_string s = Except.error e) ↔
        ¬((splitWhitespace s).length = 3 ∧
          (parseU32 ((splitWhitespace s).getD 0 [])).isSome = true)) ∧
      (∀ idv, (splitWhitespace s).length = 3 →
        parseU32 ((splitWhitespace s).getD 0 []) = some idv →
        Row.from_string s = Except.ok ⟨idv, (splitWhitespace s).getD 1 [],
          (splitWhitespace s).getD 2 []⟩)) ∧
    Row.from_string (scalars "1 john john@example.com") =
      Except.ok ⟨1, scalars "john", scalars "john@example.com"⟩ ∧
    Row.from_string (scalars "1 john") =
      Except.error "Expected 3 fields" ∧
    Row.from_string (scalars "abc john x@y.com") =
      Except.error "Invalid id" := by
  refine ⟨?_, by decide, by decide, by decide⟩
  intro s
  constructor
  · by_cases h3 : (splitWhitespace s).length = 3
    · simp only [Row.from_string]
      rw [if_neg (by omega)]
      rcases hp : parseU32 ((splitWhitespace s).getD 0 []) with _ | v
      · simp [h3, hp]
      · simp [h3, hp]
    · simp only [Row.from_string]
      rw [if_pos h3]
      simp [h3]
  · intro idv h3 hp
    simp only [Row.from_string]
    rw [if_neg (by omega), hp]

/-- C8, witness at a further concrete input, applying the theorem's
general part. -/
theorem c8_witness : Row.from_string (scalars "42 ada a@x.io") =
    Except.ok ⟨42, scalars "ada", scalars "a@x.io"⟩ := by
  have h := (c8_parse_record.1 (scalars "42 ada a@x.io")).2 42
    (by decide) (by decide)
  exact h.trans (by decide)

/-- C9: a successful `insert_row` on a reachable table leaves every
previously selectable row index unchanged, increments `num_rows` by
exactly one, and allocates at most one new page. -/
theorem c9_insert_frame : ∀ (t : Table) (r : Row) (t' : Table),
    Reachable t → t.insert_row r = InsertResult.ok t' →
    (∀ i, i < t.num_rows → t'.select_row i = t.select_row i) ∧
    t'.num_rows = t.num_rows + 1 ∧
    t'.num_pages ≤ t.num_pages + 1 := by
  intro t r t' hre hins
  have hInv := reachable_inv t hre
  obtain ⟨hn, hpl, hple, hslot, hframe, hInv'⟩ := insert_ok_inv t t' r hInv hins
  rw [Inv_def14] at hInv
  refine ⟨?_, hn, hple⟩
  intro i hi
  have hip : i / 14 < t.pages.length := by
    rw [hInv.1]
    omega
  have hip' : i / 14 < t'.pages.length := by
    rw [hpl]
    omega
  rw [select_row_eq t i hip, select_row_eq t' i hip',
    hframe i (by omega) hip]

/-- C9, witness: inserting into the empty table (vacuous frame) and
into nothing else, applying the theorem. -/
theorem c9_witness :
    (∀ i, i < Table.new.num_rows →
      w9table.select_row i = Table.new.select_row i) ∧
    w9table.num_rows = Table.new.num_rows + 1 ∧
    w9table.num_pages ≤ Table.new.num_pages + 1 :=
  c9_insert_frame Table.new c9row w9table Reachable.new
    (single_insert_eq c9row)

/-- C10: every table reachable from `new` by `insert_row` calls has
`page_count = ceil(row_count / 14)`; the fresh table has zero pages,
and a failing insertion changes neither the page count nor the row
count (it returns the table unchanged). -/
theorem c10_page_count_invariant : ∀ t : Table, Reachable t →
    t.num_pages = (t.num_rows + 13) / 14 ∧
    Table.new.num_pages = 0 ∧
    (∀ (r : Row) (msg : String) (t' : Table),
      t.insert_row r = InsertResult.err msg t' →
      t'.num_pages = t.num_pages ∧ t'.num_rows = t.num_rows) := by
  intro t h
  have hInv := reachable_inv t h
  rw [Inv_def14] at hInv
  refine ⟨hInv.1, rfl, ?_⟩
  intro r msg t' he
  obtain ⟨rfl, _⟩ := insert_row_err_elim t r msg t' he
  exact ⟨rfl, rfl⟩

/-- C10, witness at the freshly created table. -/
theorem c10_witness :
    Table.new.num_pages = (Table.new.num_rows + 13) / 14 ∧
    Table.new.num_pages = 0 ∧
    (∀ (r : Row) (msg : String) (t' : Table),
      Table.new.insert_row r = InsertResult.err msg t' →
      t'.num_pages = Table.new.num_pages ∧
        t'.num_rows = Table.new.num_rows) :=
  c10_page_count_invariant Table.new Reachable.new

end DbRs
